import Mathlib

/-!
Verification of the powerplant-api dispatch core (`app/services/dispatch.py`
and `app/core/errors.py`) against its natural-language specification.

Embedding conventions:
* Python `float` values are modelled as exact rationals (`ℚ`); the `1e-9`
  epsilon literal of the source is modelled as the exact rational `1/10^9`.
* Python `round` (banker's rounding, round-half-to-even) is modelled by
  `py_round`; `round(x, 1)` is modelled by `round1`.
* `math.inf` is modelled by `⊤` in `WithTop ℚ`.
* Exceptions are modelled by `Except PyError`, where a `PyError` records the
  Python exception class name and message, so that distinct exception classes
  and distinct messages remain distinguishable.
* The `math.isclose` tolerance test of the reconstruction loop becomes exact
  equality, which is the same test at exact (rational) arithmetic.
-/

namespace PowerplantApi

section

attribute [local semireducible] Rat.add Rat.sub Rat.mul Rat.inv

/-- Python's built-in `round` to an integer: round half to even. -/
def py_round (q : ℚ) : ℤ :=
  let f := ⌊q⌋
  if q - f < 1/2 then f
  else if 1/2 < q - f then f + 1
  else if f % 2 = 0 then f else f + 1

/-- Python's `round(x, 1)`: round to one decimal place. -/
def round1 (x : ℚ) : ℚ := (py_round (x * 10) : ℚ) / 10

/-- The `1e-9` literal used by the unit converter, as an exact rational. -/
def float_epsilon : ℚ := 1 / 1000000000

/-- `UNIT_SCALE = 10`: 0.1 MW increments are represented as integers. -/
def UNIT_SCALE : ℚ := 10

/-- `_to_units`: convert MW to scaled integer units
(`int(round((value + 1e-9) * UNIT_SCALE))`). -/
def to_units (value : ℚ) : ℤ := py_round ((value + float_epsilon) * UNIT_SCALE)

/-- `_from_units`: convert scaled integer units back to MW
(`round(units / UNIT_SCALE + 1e-9, 1)`). -/
def from_units (units : ℤ) : ℚ := round1 ((units : ℚ) / UNIT_SCALE + float_epsilon)

theorem py_round_of_near_int (n : ℤ) (e : ℚ) (h0 : 0 ≤ e) (h1 : e < 1/2) :
    py_round ((n : ℚ) + e) = n := by
  have hfloor : ⌊(n : ℚ) + e⌋ = n := by
    rw [Int.floor_eq_iff]
    constructor
    · linarith
    · linarith
  unfold py_round
  simp only [hfloor]
  have : (n : ℚ) + e - (n : ℤ) = e := by ring
  rw [this, if_pos h1]

theorem from_units_eq (u : ℤ) : from_units u = (u : ℚ) / 10 := by
  unfold from_units round1 UNIT_SCALE float_epsilon
  have harg : ((u : ℚ) / 10 + 1 / 1000000000) * 10 = (u : ℚ) + 10 / 1000000000 := by ring
  rw [harg, py_round_of_near_int u (10 / 1000000000) (by norm_num) (by norm_num)]

theorem to_units_tenth (k : ℤ) : to_units ((k : ℚ) / 10) = k := by
  unfold to_units UNIT_SCALE float_epsilon
  have harg : ((k : ℚ) / 10 + 1 / 1000000000) * 10 = (k : ℚ) + 10 / 1000000000 := by ring
  rw [harg, py_round_of_near_int k (10 / 1000000000) (by norm_num) (by norm_num)]

/-- C8: for every MW value `v` that is a non-negative multiple of the 0.1 MW
granularity, `_from_units (_to_units v) = v`: the two unit-converter functions
are exact inverses on granularity-aligned inputs. -/
theorem to_from_units_round_trip (v : ℚ) (h : ∃ k : ℕ, v = (k : ℚ) / 10) :
    from_units (to_units v) = v := by
  obtain ⟨k, rfl⟩ := h
  have hk : ((k : ℕ) : ℚ) / 10 = ((k : ℤ) : ℚ) / 10 := by push_cast; ring
  rw [hk, to_units_tenth, from_units_eq]

/-- Witness for C8 at the concrete aligned value `v = 0.7`. -/
theorem to_from_units_round_trip_witness :
    (∃ k : ℕ, (7 : ℚ) / 10 = (k : ℚ) / 10) ∧ from_units (to_units ((7 : ℚ) / 10)) = (7 : ℚ) / 10 :=
  ⟨⟨7, by norm_num⟩, to_from_units_round_trip ((7 : ℚ) / 10) ⟨7, by norm_num⟩⟩

/-- `PowerPlantType` from `app/models/production_plan/payload.py`. -/
inductive PowerPlantType : Type
  | gas
  | turbo
  | wind
deriving DecidableEq, Repr

/-- `FuelBreakdown` payload model. -/
structure FuelBreakdown : Type where
  gas_euro_mwh : ℚ
  kerosine_euro_mwh : ℚ
  co2_euro_ton : ℚ
  wind_percentage : ℚ
deriving DecidableEq, Repr

/-- `PowerPlant` payload model. -/
structure PowerPlant : Type where
  name : String
  type : PowerPlantType
  efficiency : ℚ
  pmin : ℚ
  pmax : ℚ
deriving DecidableEq, Repr

/-- `ProductionPlanRequest` payload model. -/
structure ProductionPlanRequest : Type where
  load : ℚ
  fuels : FuelBreakdown
  powerplants : List PowerPlant
deriving DecidableEq, Repr

/-- `PlantSpec`: internal representation used by the dispatcher. -/
structure PlantSpec : Type where
  original_index : ℕ
  name : String
  type : PowerPlantType
  min_units : ℤ
  max_units : ℤ
  cost_per_unit : ℚ
deriving DecidableEq, Repr

/-- `PowerDispatch` response model. -/
structure PowerDispatch : Type where
  name : String
  p : ℚ
deriving DecidableEq, Repr

/-- A raised Python exception: class name plus message. -/
structure PyError : Type where
  cls : String
  msg : String
deriving DecidableEq, Repr

/-- `DispatchComputationError("Requested load exceeds available capacity.")`. -/
def capacity_error : PyError :=
  ⟨"DispatchComputationError", "Requested load exceeds available capacity."⟩

/-- `DispatchComputationError("Unable to satisfy load with provided fleet configuration.")`. -/
def unsatisfiable_error : PyError :=
  ⟨"DispatchComputationError", "Unable to satisfy load with provided fleet configuration."⟩

/-- `InvalidPayloadError` (defined in `app/core/errors.py`; message left open). -/
def invalid_payload_error (msg : String) : PyError := ⟨"InvalidPayloadError", msg⟩

/-- `WIND_MARGINAL_COST = 0.0`. -/
def WIND_MARGINAL_COST : ℚ := 0

/-- `EMISSION_COEFFICIENT` table. -/
def EMISSION_COEFFICIENT : PowerPlantType → ℚ
  | .gas => 3/10
  | .turbo => 3/10
  | .wind => 0

/-- `_effective_max_output`: wind capacity is scaled by availability, floored at 0. -/
def effective_max_output (plant : PowerPlant) (fuels : FuelBreakdown) : ℚ :=
  let max_output :=
    if plant.type = PowerPlantType.wind then plant.pmax * (fuels.wind_percentage / 100)
    else plant.pmax
  max 0 max_output

/-- `_marginal_cost`: marginal cost in euro per MWh. -/
def marginal_cost (plant : PowerPlant) (fuels : FuelBreakdown) : ℚ :=
  if plant.type = PowerPlantType.wind then WIND_MARGINAL_COST
  else
    let fuel_price :=
      if plant.type = PowerPlantType.gas then fuels.gas_euro_mwh else fuels.kerosine_euro_mwh
    fuel_price / plant.efficiency + EMISSION_COEFFICIENT plant.type * fuels.co2_euro_ton

/-- The `PlantSpec` built for one plant at a given enumeration index. -/
def build_spec (index : ℕ) (plant : PowerPlant) (fuels : FuelBreakdown) : PlantSpec :=
  let min_output := if plant.type ≠ PowerPlantType.wind then plant.pmin else 0
  let max_output := effective_max_output plant fuels
  let cost_per_mwh := marginal_cost plant fuels
  { original_index := index
    name := plant.name
    type := plant.type
    min_units := to_units min_output
    max_units := to_units max_output
    cost_per_unit := cost_per_mwh / UNIT_SCALE }

/-- The `for index, plant in enumerate(powerplants)` loop of `_build_specs`,
carrying the running index. -/
def build_specs_from (fuels : FuelBreakdown) : ℕ → List PowerPlant → List PlantSpec
  | _, [] => []
  | index, plant :: rest => build_spec index plant fuels :: build_specs_from fuels (index + 1) rest

/-- `_build_specs`: build internal plant specifications from the payload. -/
def build_specs (powerplants : List PowerPlant) (fuels : FuelBreakdown) : List PlantSpec :=
  build_specs_from fuels 0 powerplants

/-- The non-strict ascending lexicographic order on the
`(cost_per_unit, max_units)` sort key produced by
`operator.attrgetter("cost_per_unit", "max_units")`. -/
def spec_key_le (s t : PlantSpec) : Prop :=
  s.cost_per_unit < t.cost_per_unit ∨
    (s.cost_per_unit = t.cost_per_unit ∧ s.max_units ≤ t.max_units)

instance : DecidableRel spec_key_le := by
  unfold spec_key_le DecidableRel
  infer_instance

/-- The strict ascending lexicographic order on the same key. -/
def spec_key_lt (s t : PlantSpec) : Bool :=
  decide (s.cost_per_unit < t.cost_per_unit ∨
    (s.cost_per_unit = t.cost_per_unit ∧ s.max_units < t.max_units))

/-- Stable insertion of a spec into a key-sorted list: the new element goes in
front of the first element whose key is not strictly smaller, hence after all
earlier-inserted elements with an equal key. -/
def insert_by_key (s : PlantSpec) : List PlantSpec → List PlantSpec
  | [] => [s]
  | t :: rest => if spec_key_lt t s then t :: insert_by_key s rest else s :: t :: rest

/-- `_sort_specs_by_cost_and_capacity`: Python's `sorted` is the stable sort on
the `(cost_per_unit, max_units)` key; it is modelled by stable insertion sort,
which computes the same (unique) stable key-sorted permutation. -/
def sort_specs_by_cost_and_capacity (specs : List PlantSpec) : List PlantSpec :=
  specs.foldr insert_by_key []

/-- `_iter_feasible_units`: the unit assignments enumerated for one plant given
the remaining load (in ascending order). -/
def iter_feasible_units (spec : PlantSpec) (remaining : ℤ) : List ℤ :=
  let max_assignable := min spec.max_units remaining
  if max_assignable ≤ 0 then [0]
  else
    let start := max spec.min_units 1
    if start ≤ max_assignable then
      (List.range (max_assignable + 1 - start).toNat).map (fun k : ℕ => start + (k : ℤ))
    else []

/-- The cost contribution of assigning `u` units to `spec`, plus the optimal
cost `sub` of the rest of the fleet (`math.inf` absorbs). -/
def candidate_cost (spec : PlantSpec) (u : ℤ) (sub : WithTop ℚ) : WithTop ℚ :=
  (((u : ℚ) * spec.cost_per_unit : ℚ) : WithTop ℚ) + sub

/-- The memoized `min_cost(index, remaining)` recursion of `_solve_dispatch`:
minimum cost to satisfy `remaining` units using the given suffix of specs
(memoization does not change the computed value and is dropped). -/
def min_cost : List PlantSpec → ℤ → WithTop ℚ
  | [], remaining =>
    if remaining < 0 then ⊤ else if remaining = 0 then (0 : ℚ) else ⊤
  | spec :: rest, remaining =>
    if remaining < 0 then ⊤
    else
      ((iter_feasible_units spec remaining).map
        (fun u => candidate_cost spec u (min_cost rest (remaining - u)))).foldr min ⊤

/-- The reconstruction walk of `_solve_dispatch`: at each position, the first
feasible unit count whose candidate cost equals the memoized optimum is
committed (`math.isclose` becomes exact equality at rational arithmetic);
if none matches, `chosen_units` stays 0 and `remaining` is unchanged. -/
def reconstruct : List PlantSpec → ℤ → List ℤ
  | [], _ => []
  | spec :: rest, remaining =>
    let target := min_cost (spec :: rest) remaining
    match (iter_feasible_units spec remaining).find?
        (fun u => decide (candidate_cost spec u (min_cost rest (remaining - u)) = target)) with
    | some u => u :: reconstruct rest (remaining - u)
    | none => 0 :: reconstruct rest remaining

/-- `_solve_dispatch`: `none` models the `DispatchComputationError` raised when
`min_cost(0, load_units)` is infinite; otherwise the reconstructed assignment. -/
def solve_dispatch (specs : List PlantSpec) (load_units : ℤ) : Option (List ℤ) :=
  if min_cost specs load_units = ⊤ then none else some (reconstruct specs load_units)

/-- The `units_by_index` dictionary: Python dict construction keeps the last
binding of a key, i.e. the first match in the reversed pair list;
`units_by_index.get(idx, 0)` defaults to 0. -/
def units_by_index (pairs : List (PlantSpec × ℤ)) (idx : ℕ) : ℤ :=
  match pairs.reverse.find? (fun pair => pair.1.original_index == idx) with
  | some pair => pair.2
  | none => 0

/-- The final `for idx, plant in enumerate(payload.powerplants)` loop of
`build_production_plan`, emitting one `PowerDispatch` per plant. -/
def assemble_plan (pairs : List (PlantSpec × ℤ)) : ℕ → List PowerPlant → List PowerDispatch
  | _, [] => []
  | idx, plant :: rest =>
    ⟨plant.name, from_units (units_by_index pairs idx)⟩ :: assemble_plan pairs (idx + 1) rest

/-- `build_production_plan`: the full dispatch computation, with raised
exceptions modelled by `Except.error`. -/
def build_production_plan (payload : ProductionPlanRequest) :
    Except PyError (List PowerDispatch) :=
  let specs := build_specs payload.powerplants payload.fuels
  let load_units := to_units payload.load
  let total_capacity := (specs.map (fun spec => spec.max_units)).sum
  if load_units > total_capacity then Except.error capacity_error
  else
    let sorted_specs := sort_specs_by_cost_and_capacity specs
    match solve_dispatch sorted_specs load_units with
    | none => Except.error unsatisfiable_error
    | some assignment_units =>
      Except.ok (assemble_plan (sorted_specs.zip assignment_units) 0 payload.powerplants)

deriving instance DecidableEq for Except

/-- Total cost of an allocation (units per plant, positionally aligned with the
spec list): sum over plants of units times `cost_per_unit`. -/
def alloc_cost (specs : List PlantSpec) (alloc : List ℤ) : ℚ :=
  ((specs.zip alloc).map (fun pair => (pair.2 : ℚ) * pair.1.cost_per_unit)).sum

/-- An alternative allocation in the sense of the spec's optimality property:
one unit count per plant, each either 0 or within that plant's
`[min_units, max_units]`, summing to the requested load in units. -/
def feasible_alloc (specs : List PlantSpec) (alloc : List ℤ) (load_units : ℤ) : Prop :=
  alloc.length = specs.length ∧ alloc.sum = load_units ∧
    ∀ pair ∈ specs.zip alloc,
      pair.2 = 0 ∨ (pair.1.min_units ≤ pair.2 ∧ pair.2 ≤ pair.1.max_units)

instance (specs : List PlantSpec) (alloc : List ℤ) (load_units : ℤ) :
    Decidable (feasible_alloc specs alloc load_units) := by
  unfold feasible_alloc
  infer_instance

/-- Fuels for the optimality counterexample: gas 5 €/MWh, CO2 free, no wind. -/
def cex_fuels : FuelBreakdown := ⟨5, 1, 0, 0⟩

/-- Gas plant, efficiency 1, pmin 0.2 MW, pmax 0.5 MW (5 €/MWh marginal). -/
def cex_plant1 : PowerPlant := ⟨"p1", .gas, 1, 2/10, 5/10⟩

/-- Gas plant, efficiency 1/6, pmin 0 MW, pmax 0.3 MW (30 €/MWh marginal). -/
def cex_plant2 : PowerPlant := ⟨"p2", .gas, 1/6, 0, 3/10⟩

/-- Gas plant, efficiency 1/6, pmin 0.4 MW, pmax 0.5 MW (30 €/MWh marginal). -/
def cex_plant3 : PowerPlant := ⟨"p3", .gas, 1/6, 4/10, 5/10⟩

/-- Request for 0.9 MW over the three counterexample plants. -/
def cex_request : ProductionPlanRequest := ⟨9/10, cex_fuels, [cex_plant1, cex_plant2, cex_plant3]⟩

/-- Request whose single gas plant has pmax 2.06 MW, not aligned to the 0.1 MW
granularity, with a requested load of 2.1 MW. -/
def bounds_request : ProductionPlanRequest := ⟨21/10, ⟨10, 1, 0, 0⟩, [⟨"g", .gas, 1, 0, 206/100⟩]⟩

/-- Request with a plant whose pmin 0.5 MW exceeds its pmax 0.2 MW (the
schema-level `pmin ≤ pmax` validation lives outside the dispatch core). -/
def invalid_bounds_request : ProductionPlanRequest :=
  ⟨1/10, ⟨10, 1, 0, 0⟩, [⟨"g", .gas, 1, 5/10, 2/10⟩]⟩

/-- Scenario B of the spec: one wind plant with pmax 100 MW at 50% wind
availability, requested load 60 MW. -/
def wind_request : ProductionPlanRequest := ⟨60, ⟨10, 1, 0, 50⟩, [⟨"w", .wind, 1, 0, 100⟩]⟩

/-- Downscaled Scenario A: one gas plant (pmin 0, pmax 0.5 MW, efficiency 1),
gas 10 €/MWh, CO2 free, requested load 0.3 MW. -/
def scenario_a_request : ProductionPlanRequest := ⟨3/10, ⟨10, 1, 0, 0⟩, [⟨"a", .gas, 1, 0, 5/10⟩]⟩

/-- C1: evaluation of `_iter_feasible_units` at the failing input — a plant spec
with `min_units = 0`, `max_units = 5` and remaining load 3. The enumeration is
exactly `[1, 2, 3]` and does not contain 0, although the claim's side condition
`min(max_units, remaining) ≥ max(min_units, 1)` holds, so the claimed
always-present 0 (fully off) is missing. -/
theorem feasible_units_omit_zero :
    iter_feasible_units ⟨0, "s", .gas, 0, 5, 1⟩ 3 = [1, 2, 3] ∧
    (0 : ℤ) ∉ iter_feasible_units ⟨0, "s", .gas, 0, 5, 1⟩ 3 ∧
    max (0 : ℤ) 1 ≤ min (5 : ℤ) 3 := by
  decide

/-- C2: evaluation at the failing input. On `cex_request` the solver returns the
plan (0.4 MW, 0.1 MW, 0.4 MW), i.e. units (4, 1, 4) costing 17, although the
alternative allocation (5, 0, 4) — plant 2 fully off — is feasible for the same
load of 9 units and costs only 14.5: the returned plan is not least-cost. -/
theorem returned_plan_not_least_cost :
    build_production_plan cex_request =
      Except.ok [⟨"p1", 2/5⟩, ⟨"p2", 1/10⟩, ⟨"p3", 2/5⟩] ∧
    solve_dispatch
      (sort_specs_by_cost_and_capacity (build_specs cex_request.powerplants cex_request.fuels))
      (to_units cex_request.load) = some [4, 1, 4] ∧
    feasible_alloc (build_specs cex_request.powerplants cex_request.fuels) [5, 0, 4]
      (to_units cex_request.load) ∧
    alloc_cost (build_specs cex_request.powerplants cex_request.fuels) [5, 0, 4] <
      alloc_cost (build_specs cex_request.powerplants cex_request.fuels) [4, 1, 4] := by
  decide

/-- First spec of the sort counterexample: cost 2 per unit, `max_units` 3. -/
def tie_spec_small : PlantSpec := ⟨0, "a", .gas, 0, 3, 2⟩

/-- Second spec of the sort counterexample: cost 2 per unit, `max_units` 5. -/
def tie_spec_big : PlantSpec := ⟨1, "b", .gas, 0, 5, 2⟩

/-- C3 counterexample: two specs with equal `cost_per_unit` and `max_units`
3 < 5 are sorted with the smaller capacity first — the tie is broken by
ascending `max_units`, not by the claimed descending order (which would have to
put `tie_spec_big` first). -/
theorem sort_tie_ascending_counterexample :
    sort_specs_by_cost_and_capacity [tie_spec_big, tie_spec_small] =
      [tie_spec_small, tie_spec_big] ∧
    tie_spec_small.cost_per_unit = tie_spec_big.cost_per_unit ∧
    tie_spec_small.max_units < tie_spec_big.max_units := by
  decide

/-- C5 counterexample: on a request whose single plant ends up with adjusted
`min_units = 5 > 2 = max_units`, spec construction does not fail — the spec is
built as-is — and the computation runs the optimizer, failing there with a
`DispatchComputationError`, not with any `InvalidPayloadError`. -/
theorem no_invalid_input_check_counterexample :
    build_specs invalid_bounds_request.powerplants invalid_bounds_request.fuels =
      [⟨0, "g", .gas, 5, 2, 1⟩] ∧
    build_production_plan invalid_bounds_request = Except.error unsatisfiable_error ∧
    unsatisfiable_error.cls ≠ "InvalidPayloadError" := by
  decide

/-- C6 counterexample: on `bounds_request` the plant's effective maximum output
is its pmax 2.06 MW, yet the returned plan allocates 2.1 MW to it — a nonzero
allocation strictly above the claimed `[pmin_effective, pmax_effective]` range
(the 0.1 MW quantization rounds 2.06 MW up to 21 units). -/
theorem allocation_exceeds_effective_max_counterexample :
    build_production_plan bounds_request = Except.ok [⟨"g", 21/10⟩] ∧
    effective_max_output ⟨"g", .gas, 1, 0, 206/100⟩ ⟨10, 1, 0, 0⟩ = 206/100 ∧
    (206 : ℚ)/100 < 21/10 := by
  decide

/-- C10: every error produced by `build_production_plan` carries the exception
class `DispatchComputationError` — in particular the core never raises
`InvalidPayloadError` — and the capacity-exceeded and unsatisfiable errors share
that class, differing only in their message strings. -/
theorem infeasibility_errors_share_class :
    (∀ (payload : ProductionPlanRequest) (e : PyError),
      build_production_plan payload = Except.error e → e.cls = "DispatchComputationError") ∧
    capacity_error.cls = unsatisfiable_error.cls ∧
    capacity_error.msg ≠ unsatisfiable_error.msg := by
  refine ⟨?_, rfl, by decide⟩
  intro payload e h
  simp only [build_production_plan] at h
  split at h
  · simp only [Except.error.injEq] at h
    subst h; rfl
  · split at h
    · simp only [Except.error.injEq] at h
      subst h; rfl
    · exact absurd h (by simp)

/-- Witness for C10: the universally quantified part applied to the concrete
wind request, which fails with the capacity error. -/
theorem infeasibility_errors_share_class_witness :
    capacity_error.cls = "DispatchComputationError" :=
  infeasibility_errors_share_class.1 wind_request capacity_error (by decide)

theorem spec_key_le_trans (a b c : PlantSpec) (h1 : spec_key_le a b) (h2 : spec_key_le b c) :
    spec_key_le a c := by
  unfold spec_key_le at h1 h2 ⊢
  rcases h1 with h1 | ⟨h1e, h1m⟩ <;> rcases h2 with h2 | ⟨h2e, h2m⟩
  · exact Or.inl (lt_trans h1 h2)
  · exact Or.inl (h2e ▸ h1)
  · exact Or.inl (h1e ▸ h2)
  · exact Or.inr ⟨h1e.trans h2e, le_trans h1m h2m⟩

theorem spec_key_le_of_lt (t s : PlantSpec) (h : spec_key_lt t s = true) : spec_key_le t s := by
  unfold spec_key_lt at h
  rw [decide_eq_true_eq] at h
  rcases h with h | ⟨he, hm⟩
  · exact Or.inl h
  · exact Or.inr ⟨he, le_of_lt hm⟩

theorem spec_key_le_of_not_lt (t s : PlantSpec) (h : ¬ spec_key_lt t s = true) : spec_key_le s t := by
  unfold spec_key_lt at h
  rw [decide_eq_true_eq] at h
  push_neg at h
  obtain ⟨h1, h2⟩ := h
  rcases lt_trichotomy s.cost_per_unit t.cost_per_unit with hc | hc | hc
  · exact Or.inl hc
  · exact Or.inr ⟨hc, h2 hc.symm⟩
  · exact absurd hc (not_lt.mpr h1)

theorem insert_by_key_perm (s : PlantSpec) (l : List PlantSpec) :
    List.Perm (insert_by_key s l) (s :: l) := by
  induction l with
  | nil => exact List.Perm.refl _
  | cons t rest ih =>
    unfold insert_by_key
    split
    · exact (List.Perm.cons t ih).trans (List.Perm.swap s t rest)
    · exact List.Perm.refl _

theorem insert_by_key_pairwise (s : PlantSpec) (l : List PlantSpec)
    (h : l.Pairwise spec_key_le) : (insert_by_key s l).Pairwise spec_key_le := by
  induction l with
  | nil => simp [insert_by_key]
  | cons t rest ih =>
    rw [List.pairwise_cons] at h
    obtain ⟨ht, hrest⟩ := h
    unfold insert_by_key
    split
    · rw [List.pairwise_cons]
      refine ⟨?_, ih hrest⟩
      intro b hb
      rw [(insert_by_key_perm s rest).mem_iff, List.mem_cons] at hb
      rcases hb with rfl | hb
      · exact spec_key_le_of_lt t b (by assumption)
      · exact ht b hb
    · rw [List.pairwise_cons]
      refine ⟨?_, List.pairwise_cons.mpr ⟨ht, hrest⟩⟩
      intro b hb
      rcases List.mem_cons.mp hb with rfl | hb
      · exact spec_key_le_of_not_lt b s (by assumption)
      · exact spec_key_le_trans s t b (spec_key_le_of_not_lt t s (by assumption)) (ht b hb)

theorem sort_specs_perm (specs : List PlantSpec) :
    List.Perm (sort_specs_by_cost_and_capacity specs) specs := by
  induction specs with
  | nil => exact List.Perm.refl _
  | cons x xs ih =>
    exact (insert_by_key_perm x _).trans (List.Perm.cons x ih)

theorem sort_specs_pairwise (specs : List PlantSpec) :
    (sort_specs_by_cost_and_capacity specs).Pairwise spec_key_le := by
  induction specs with
  | nil => simp [sort_specs_by_cost_and_capacity]
  | cons x xs ih => exact insert_by_key_pairwise x _ ih

/-- C3 (amended): the ordering used for solving is a permutation of the input
specs sorted by ascending `cost_per_unit`, with ties broken by ascending
`max_units` (the claim's descending tie-break does not match the code, see the
counterexample). -/
theorem sort_specs_sorted_by_cost_then_max :
    ∀ specs : List PlantSpec,
      List.Perm (sort_specs_by_cost_and_capacity specs) specs ∧
      (sort_specs_by_cost_and_capacity specs).Pairwise spec_key_le :=
  fun specs => ⟨sort_specs_perm specs, sort_specs_pairwise specs⟩

theorem errors_have_dispatch_class (payload : ProductionPlanRequest) (e : PyError)
    (h : build_production_plan payload = Except.error e) :
    e.cls = "DispatchComputationError" := by
  simp only [build_production_plan] at h
  split at h
  · simp only [Except.error.injEq] at h
    subst h; rfl
  · split at h
    · simp only [Except.error.injEq] at h
      subst h; rfl
    · exact absurd h (by simp)

/-- C5 (amended): a request containing a plant whose adjusted `min_units`
exceed its adjusted `max_units` is not rejected at spec construction — the
whole spec list is still built, one spec per plant — and any error the
computation raises is a `DispatchComputationError`, never an
`InvalidPayloadError`. -/
theorem min_exceeding_max_no_invalid_input (payload : ProductionPlanRequest)
    (_h : ∃ spec ∈ build_specs payload.powerplants payload.fuels,
      spec.max_units < spec.min_units) :
    (build_specs payload.powerplants payload.fuels).length = payload.powerplants.length ∧
    ∀ e : PyError, build_production_plan payload = Except.error e →
      e.cls = "DispatchComputationError" := by
  refine ⟨?_, fun e he => errors_have_dispatch_class payload e he⟩
  clear _h
  unfold build_specs
  generalize 0 = k
  induction payload.powerplants generalizing k with
  | nil => rfl
  | cons p ps ih => simpa [build_specs_from] using ih (k + 1)

/-- Witness for C5: the amended statement at the concrete request whose plant
has adjusted `min_units = 5 > 2 = max_units`. -/
theorem min_exceeding_max_no_invalid_input_witness :
    (build_specs invalid_bounds_request.powerplants invalid_bounds_request.fuels).length =
      invalid_bounds_request.powerplants.length ∧
    ∀ e : PyError, build_production_plan invalid_bounds_request = Except.error e →
      e.cls = "DispatchComputationError" :=
  min_exceeding_max_no_invalid_input invalid_bounds_request
    ⟨⟨0, "g", .gas, 5, 2, 1⟩, by decide, by decide⟩

/-- C7: `build_production_plan` fails with the capacity-exceeded
`DispatchComputationError` exactly when the summed `max_units` of all plant
specs (wind capacity already scaled by availability inside `_build_specs`) is
strictly below the requested load in units; this check precedes the optimizer,
whose outcome cannot influence it. Moreover the spec's Scenario B instance — a
wind plant with pmax 100 MW at 50% availability and a 60 MW load — fails with
exactly that error. -/
theorem capacity_error_iff_capacity_short :
    (∀ payload : ProductionPlanRequest,
      build_production_plan payload = Except.error capacity_error ↔
        ((build_specs payload.powerplants payload.fuels).map
          (fun spec => spec.max_units)).sum < to_units payload.load) ∧
    build_production_plan wind_request = Except.error capacity_error := by
  constructor
  · intro payload
    simp only [build_production_plan]
    split
    · exact iff_of_true rfl (by assumption)
    · split
      · refine iff_of_false ?_ (by omega)
        simp only [Except.error.injEq]
        intro he
        exact absurd (congrArg PyError.msg he) (by decide)
      · exact iff_of_false (by simp) (by omega)
  · decide

/-- Witness for C7: the general direction applied at the wind request. -/
theorem capacity_error_iff_capacity_short_witness :
    build_production_plan wind_request = Except.error capacity_error :=
  (capacity_error_iff_capacity_short.1 wind_request).mpr (by decide)

theorem assemble_plan_length (pairs : List (PlantSpec × ℤ)) :
    ∀ (k : ℕ) (plants : List PowerPlant),
      (assemble_plan pairs k plants).length = plants.length
  | _, [] => rfl
  | k, _ :: ps => by
    simp only [assemble_plan, List.length_cons]
    rw [assemble_plan_length pairs (k + 1) ps]

theorem assemble_plan_get (pairs : List (PlantSpec × ℤ)) (plants : List PowerPlant)
    (k i : ℕ) (hi : i < (assemble_plan pairs k plants).length) (hp : i < plants.length) :
    (assemble_plan pairs k plants).get ⟨i, hi⟩ =
      ⟨(plants.get ⟨i, hp⟩).name, from_units (units_by_index pairs (k + i))⟩ := by
  induction plants generalizing k i with
  | nil => exact absurd hp (by simp)
  | cons p ps ih =>
    cases i with
    | zero => rfl
    | succ i =>
      have hi' : i < (assemble_plan pairs (k + 1) ps).length := by
        simpa [assemble_plan] using hi
      have hk : k + 1 + i = k + (i + 1) := by omega
      simpa [assemble_plan, hk] using ih (k + 1) i hi' (by simpa using hp)

/-- C9: every returned plan has exactly one entry per input plant, in the
original input order, each entry carrying the corresponding plant's name,
regardless of the reordering used for solving. -/
theorem plan_preserves_input_order_and_names (payload : ProductionPlanRequest)
    (plan : List PowerDispatch) (h : build_production_plan payload = Except.ok plan) :
    plan.length = payload.powerplants.length ∧
    ∀ (i : ℕ) (hi : i < plan.length) (hp : i < payload.powerplants.length),
      (plan.get ⟨i, hi⟩).name = (payload.powerplants.get ⟨i, hp⟩).name := by
  simp only [build_production_plan] at h
  split at h
  · exact absurd h (by simp)
  · split at h
    · exact absurd h (by simp)
    · simp only [Except.ok.injEq] at h
      subst h
      refine ⟨assemble_plan_length _ 0 _, ?_⟩
      intro i hi hp
      rw [assemble_plan_get _ _ 0 i hi hp]

/-- Witness for C9 at the downscaled Scenario A request. -/
theorem plan_preserves_input_order_and_names_witness :
    ([⟨"a", (3 : ℚ)/10⟩] : List PowerDispatch).length =
      scenario_a_request.powerplants.length ∧
    ∀ (i : ℕ) (hi : i < ([⟨"a", (3 : ℚ)/10⟩] : List PowerDispatch).length)
      (hp : i < scenario_a_request.powerplants.length),
      (([⟨"a", (3 : ℚ)/10⟩] : List PowerDispatch).get ⟨i, hi⟩).name =
        (scenario_a_request.powerplants.get ⟨i, hp⟩).name :=
  plan_preserves_input_order_and_names scenario_a_request [⟨"a", (3 : ℚ)/10⟩] (by decide)

theorem foldr_min_mem (l : List (WithTop ℚ)) (h : l.foldr min ⊤ ≠ ⊤) :
    l.foldr min ⊤ ∈ l := by
  induction l with
  | nil => exact absurd rfl h
  | cons a t ih =>
    simp only [List.foldr_cons] at h ⊢
    rcases le_total a (t.foldr min ⊤) with hle | hle
    · rw [min_eq_left hle] at h ⊢
      exact List.mem_cons_self a t
    · rw [min_eq_right hle] at h ⊢
      exact List.mem_cons_of_mem a (ih h)

theorem min_cost_cons (spec : PlantSpec) (rest : List PlantSpec) (r : ℤ) (hr : ¬ r < 0) :
    min_cost (spec :: rest) r =
      ((iter_feasible_units spec r).map
        (fun u => candidate_cost spec u (min_cost rest (r - u)))).foldr min ⊤ := by
  rw [min_cost, if_neg hr]

theorem exists_optimal_candidate (spec : PlantSpec) (rest : List PlantSpec) (r : ℤ)
    (h : min_cost (spec :: rest) r ≠ ⊤) :
    ∃ u ∈ iter_feasible_units spec r,
      candidate_cost spec u (min_cost rest (r - u)) = min_cost (spec :: rest) r := by
  have hr : ¬ r < 0 := fun hneg => h (by rw [min_cost, if_pos hneg])
  rw [min_cost_cons spec rest r hr] at h ⊢
  obtain ⟨u, hu, he⟩ := List.mem_map.mp (foldr_min_mem _ h)
  exact ⟨u, hu, he⟩

theorem reconstruct_length : ∀ (specs : List PlantSpec) (r : ℤ),
    (reconstruct specs r).length = specs.length
  | [], _ => rfl
  | spec :: rest, r => by
    simp only [reconstruct]
    split <;> simp [reconstruct_length rest]

theorem reconstruct_sum : ∀ (specs : List PlantSpec) (r : ℤ), min_cost specs r ≠ ⊤ →
    (reconstruct specs r).sum = r := by
  intro specs
  induction specs with
  | nil =>
    intro r h
    have h0 : r = 0 := by
      by_contra hne
      rcases lt_or_ge r 0 with hneg | hge
      · exact h (by rw [min_cost, if_pos hneg])
      · exact h (by rw [min_cost, if_neg (not_lt.mpr hge), if_neg hne])
    simp [reconstruct, h0]
  | cons spec rest ih =>
    intro r h
    obtain ⟨u, hu, he⟩ := exists_optimal_candidate spec rest r h
    obtain ⟨v, hv⟩ : ∃ v, (iter_feasible_units spec r).find?
        (fun u => decide (candidate_cost spec u (min_cost rest (r - u)) =
          min_cost (spec :: rest) r)) = some v := by
      cases hf : (iter_feasible_units spec r).find?
          (fun u => decide (candidate_cost spec u (min_cost rest (r - u)) =
            min_cost (spec :: rest) r)) with
      | none => exact absurd (decide_eq_true he) (by simpa using List.find?_eq_none.mp hf u hu)
      | some v => exact ⟨v, rfl⟩
    have hpred := List.find?_some hv
    have hcand : candidate_cost spec v (min_cost rest (r - v)) = min_cost (spec :: rest) r :=
      of_decide_eq_true hpred
    have hsub : min_cost rest (r - v) ≠ ⊤ := by
      intro htop
      apply h
      rw [← hcand, htop]
      simp [candidate_cost]
    have hrec : reconstruct (spec :: rest) r = v :: reconstruct rest (r - v) := by
      simp only [reconstruct]
      rw [hv]
    rw [hrec, List.sum_cons, ih (r - v) hsub]
    ring

theorem mem_iter_feasible (spec : PlantSpec) (r u : ℤ) (h : u ∈ iter_feasible_units spec r) :
    u = 0 ∨ (max spec.min_units 1 ≤ u ∧ u ≤ min spec.max_units r) := by
  simp only [iter_feasible_units] at h
  split_ifs at h with h1 h2
  · left
    simpa using h
  · right
    obtain ⟨k, hk, rfl⟩ := List.mem_map.mp h
    rw [List.mem_range] at hk
    constructor
    · omega
    · omega
  · exact absurd h (List.not_mem_nil u)

theorem zip_reconstruct_feasible : ∀ (specs : List PlantSpec) (r : ℤ) (pair : PlantSpec × ℤ),
    pair ∈ specs.zip (reconstruct specs r) →
    pair.2 = 0 ∨ (pair.1.min_units ≤ pair.2 ∧ pair.2 ≤ pair.1.max_units) := by
  intro specs
  induction specs with
  | nil =>
    intro r pair h
    simp [reconstruct] at h
  | cons spec rest ih =>
    intro r pair h
    simp only [reconstruct] at h
    split at h
    · rename_i v hv
      rw [List.zip_cons_cons, List.mem_cons] at h
      rcases h with rfl | h
      · rcases mem_iter_feasible spec r v (List.mem_of_find?_eq_some hv) with h0 | ⟨hlo, hhi⟩
        · exact Or.inl h0
        · exact Or.inr ⟨le_trans (le_max_left _ _) hlo, le_trans hhi (min_le_left _ _)⟩
      · exact ih (r - v) pair h
    · rw [List.zip_cons_cons, List.mem_cons] at h
      rcases h with rfl | h
      · exact Or.inl rfl
      · exact ih r pair h

theorem mem_build_specs_from (fuels : FuelBreakdown) :
    ∀ (plants : List PowerPlant) (k : ℕ) (spec : PlantSpec),
      spec ∈ build_specs_from fuels k plants →
      ∃ (j : ℕ) (hj : j < plants.length),
        spec = build_spec (k + j) (plants.get ⟨j, hj⟩) fuels := by
  intro plants
  induction plants with
  | nil =>
    intro k spec h
    simp [build_specs_from] at h
  | cons p ps ih =>
    intro k spec h
    rw [build_specs_from, List.mem_cons] at h
    rcases h with rfl | h
    · exact ⟨0, by simp, by simp⟩
    · obtain ⟨j, hj, hspec⟩ := ih (k + 1) spec h
      have hk : k + 1 + j = k + (j + 1) := by omega
      exact ⟨j + 1, by simpa using hj, by rw [hspec, hk]; rfl⟩

theorem build_specs_from_length (fuels : FuelBreakdown) :
    ∀ (plants : List PowerPlant) (k : ℕ),
      (build_specs_from fuels k plants).length = plants.length
  | [], _ => rfl
  | _ :: ps, k => by
    simp only [build_specs_from, List.length_cons]
    rw [build_specs_from_length fuels ps (k + 1)]

theorem build_specs_from_map_index (fuels : FuelBreakdown) :
    ∀ (plants : List PowerPlant) (k : ℕ),
      (build_specs_from fuels k plants).map (fun s => s.original_index) =
        List.range' k plants.length
  | [], _ => rfl
  | _ :: ps, k => by
    simp only [build_specs_from, List.map_cons, List.length_cons, List.range'_succ]
    rw [build_specs_from_map_index fuels ps (k + 1)]
    rfl

theorem units_by_index_cases (pairs : List (PlantSpec × ℤ)) (idx : ℕ) :
    units_by_index pairs idx = 0 ∨
      ∃ pair ∈ pairs, pair.1.original_index = idx ∧ units_by_index pairs idx = pair.2 := by
  unfold units_by_index
  cases hf : pairs.reverse.find? (fun pair => pair.1.original_index == idx) with
  | none => exact Or.inl rfl
  | some pair =>
    refine Or.inr ⟨pair, List.mem_reverse.mp (List.mem_of_find?_eq_some hf), ?_, rfl⟩
    simpa using List.find?_some hf

theorem units_by_index_eq_of_mem (pairs : List (PlantSpec × ℤ))
    (hnd : (pairs.map (fun pair => pair.1.original_index)).Nodup)
    (pair : PlantSpec × ℤ) (hmem : pair ∈ pairs) :
    units_by_index pairs pair.1.original_index = pair.2 := by
  unfold units_by_index
  cases hf : pairs.reverse.find? (fun x => x.1.original_index == pair.1.original_index) with
  | none =>
    have := List.find?_eq_none.mp hf pair (List.mem_reverse.mpr hmem)
    simp at this
  | some x =>
    have hxmem : x ∈ pairs := List.mem_reverse.mp (List.mem_of_find?_eq_some hf)
    have hxkey : x.1.original_index = pair.1.original_index := by
      simpa using List.find?_some hf
    rw [List.inj_on_of_nodup_map hnd hxmem hmem hxkey]

theorem sum_units_by_index (pairs : List (PlantSpec × ℤ)) (n : ℕ)
    (hperm : List.Perm (pairs.map (fun pair => pair.1.original_index)) (List.range n)) :
    ((List.range n).map (fun i => units_by_index pairs i)).sum =
      (pairs.map (fun pair => pair.2)).sum := by
  have hnd : (pairs.map (fun pair => pair.1.original_index)).Nodup :=
    hperm.nodup_iff.mpr (List.nodup_range n)
  have h1 := (hperm.symm.map (fun i => units_by_index pairs i)).sum_eq
  rw [h1, List.map_map]
  exact congrArg List.sum
    (List.map_congr_left (fun pair hp => units_by_index_eq_of_mem pairs hnd pair hp))

theorem sum_int_div_ten (l : List ℤ) :
    (l.map (fun u : ℤ => (u : ℚ) / 10)).sum = ((l.sum : ℤ) : ℚ) / 10 := by
  induction l with
  | nil => simp
  | cons a t ih =>
    rw [List.map_cons, List.sum_cons, ih]
    push_cast
    rw [List.map_cons, List.sum_cons]
    ring

theorem assemble_plan_map_p (pairs : List (PlantSpec × ℤ)) :
    ∀ (plants : List PowerPlant) (k : ℕ),
      (assemble_plan pairs k plants).map (fun d => d.p) =
        (List.range' k plants.length).map (fun i => from_units (units_by_index pairs i))
  | [], _ => rfl
  | _ :: ps, k => by
    simp only [assemble_plan, List.map_cons, List.length_cons, List.range'_succ]
    rw [assemble_plan_map_p pairs ps (k + 1)]

theorem py_round_dist (q : ℚ) : |((py_round q : ℤ) : ℚ) - q| ≤ 1/2 := by
  have h0 : ((⌊q⌋ : ℤ) : ℚ) ≤ q := Int.floor_le q
  have h1 : q < ((⌊q⌋ : ℤ) : ℚ) + 1 := Int.lt_floor_add_one q
  simp only [py_round]
  split_ifs with ha hb hc <;> (rw [abs_le]; constructor <;> push_cast <;> linarith)

theorem to_units_dist (v : ℚ) : |((to_units v : ℤ) : ℚ) / 10 - v| ≤ 1/10 := by
  unfold to_units UNIT_SCALE float_epsilon
  have h := py_round_dist ((v + 1 / 1000000000) * 10)
  rw [abs_le] at h ⊢
  obtain ⟨hl, hr⟩ := h
  constructor <;> linarith

/-- C4: whenever `build_production_plan` returns a plan, the summed allocated
MW over all returned entries equals the requested load to within one 0.1 MW
granularity unit (the internal unit allocation sums exactly to the requested
load in units; only the initial MW-to-units rounding of the load remains). -/
theorem plan_sum_matches_load (payload : ProductionPlanRequest) (plan : List PowerDispatch)
    (h : build_production_plan payload = Except.ok plan) :
    |(plan.map (fun d => d.p)).sum - payload.load| ≤ 1/10 := by
  simp only [build_production_plan] at h
  split at h
  · exact absurd h (by simp)
  · split at h
    · exact absurd h (by simp)
    · rename_i assignment hsolve
      simp only [Except.ok.injEq] at h
      subst h
      simp only [solve_dispatch] at hsolve
      split at hsolve
      · exact absurd hsolve (by simp)
      · rename_i hne
        simp only [Option.some.injEq] at hsolve
        set specs := build_specs payload.powerplants payload.fuels with hspecs
        set sorted := sort_specs_by_cost_and_capacity specs with hsorted
        set L := to_units payload.load with hL
        have hsum_assign : assignment.sum = L := by
          rw [← hsolve]
          exact reconstruct_sum sorted L hne
        have hlen_sorted : sorted.length = specs.length := (sort_specs_perm specs).length_eq
        have hlen_specs : specs.length = payload.powerplants.length :=
          build_specs_from_length payload.fuels payload.powerplants 0
        have hlen_assign : assignment.length = sorted.length := by
          rw [← hsolve]
          exact reconstruct_length sorted L
        have hfst : (sorted.zip assignment).map (fun pair => pair.1) = sorted :=
          List.map_fst_zip sorted assignment (by omega)
        have hsnd : (sorted.zip assignment).map (fun pair => pair.2) = assignment :=
          List.map_snd_zip sorted assignment (by omega)
        have hkeys : List.Perm
            ((sorted.zip assignment).map (fun pair => pair.1.original_index))
            (List.range payload.powerplants.length) := by
          have hmm : (sorted.zip assignment).map (fun pair => pair.1.original_index) =
              sorted.map (fun s => s.original_index) := by
            conv_rhs => rw [← hfst, List.map_map]
            rfl
          have hrange : specs.map (fun s => s.original_index) =
              List.range payload.powerplants.length := by
            rw [hspecs, build_specs, build_specs_from_map_index, List.range_eq_range']
          rw [hmm, ← hrange]
          exact (sort_specs_perm specs).map (fun s => s.original_index)
        have hlookup := sum_units_by_index (sorted.zip assignment)
          payload.powerplants.length hkeys
        rw [assemble_plan_map_p, ← List.range_eq_range']
        have hfu : (List.range payload.powerplants.length).map
              (fun i => from_units (units_by_index (sorted.zip assignment) i)) =
            ((List.range payload.powerplants.length).map
              (fun i => units_by_index (sorted.zip assignment) i)).map
                (fun u : ℤ => (u : ℚ) / 10) := by
          rw [List.map_map]
          exact List.map_congr_left (fun i _ => from_units_eq _)
        rw [hfu, sum_int_div_ten, hlookup, hsnd, hsum_assign, hL]
        exact to_units_dist payload.load

/-- Witness for C4 at the downscaled Scenario A request (plan of one entry at
0.3 MW against a 0.3 MW load). -/
theorem plan_sum_matches_load_witness :
    |(([⟨"a", (3 : ℚ)/10⟩] : List PowerDispatch).map (fun d => d.p)).sum -
      scenario_a_request.load| ≤ 1/10 :=
  plan_sum_matches_load scenario_a_request [⟨"a", (3 : ℚ)/10⟩] (by decide)

/-- C6 (amended): in every returned plan each plant's allocated MW is 0 or lies
within the granularity-quantized effective bounds
`[from_units (to_units pmin_eff), from_units (to_units pmax_eff)]`, where
`pmin_eff` is the plant's pmin for non-wind plants and 0 for wind plants and
`pmax_eff` is `_effective_max_output`; these quantized bounds coincide with the
claim's `[pmin_eff, pmax_eff]` exactly when those are 0.1 MW-aligned (the
unquantized claim fails, see the counterexample). -/
theorem allocation_within_quantized_bounds (payload : ProductionPlanRequest)
    (plan : List PowerDispatch) (h : build_production_plan payload = Except.ok plan)
    (i : ℕ) (hi : i < plan.length) (hp : i < payload.powerplants.length) :
    (plan.get ⟨i, hi⟩).p = 0 ∨
      (((to_units (if (payload.powerplants.get ⟨i, hp⟩).type ≠ PowerPlantType.wind
          then (payload.powerplants.get ⟨i, hp⟩).pmin else 0) : ℤ) : ℚ) / 10 ≤
            (plan.get ⟨i, hi⟩).p ∧
        (plan.get ⟨i, hi⟩).p ≤
          ((to_units (effective_max_output (payload.powerplants.get ⟨i, hp⟩)
            payload.fuels) : ℤ) : ℚ) / 10) := by
  simp only [build_production_plan] at h
  split at h
  · exact absurd h (by simp)
  · split at h
    · exact absurd h (by simp)
    · rename_i assignment hsolve
      simp only [Except.ok.injEq] at h
      subst h
      simp only [solve_dispatch] at hsolve
      split at hsolve
      · exact absurd hsolve (by simp)
      · rename_i hne
        simp only [Option.some.injEq] at hsolve
        set specs := build_specs payload.powerplants payload.fuels with hspecs
        set sorted := sort_specs_by_cost_and_capacity specs with hsorted
        set L := to_units payload.load with hL
        rw [assemble_plan_get _ _ 0 i hi hp]
        simp only [Nat.zero_add]
        rcases units_by_index_cases (sorted.zip assignment) i with h0 | ⟨pair, hpmem, hpkey, hpval⟩
        · left
          rw [h0, from_units_eq]
          norm_num
        · obtain ⟨s, u⟩ := pair
          simp only at hpkey hpval
          rw [← hsolve] at hpmem
          rcases zip_reconstruct_feasible sorted L (s, u) hpmem with h0 | ⟨hlo, hhi⟩
          · left
            simp only at h0
            rw [hpval, h0, from_units_eq]
            norm_num
          · have hsmem : s ∈ specs :=
              (sort_specs_perm specs).mem_iff.mp (List.of_mem_zip hpmem).1
            obtain ⟨j, hj, hsj⟩ := mem_build_specs_from payload.fuels payload.powerplants 0 s
              (by exact hsmem)
            have hji : j = i := by
              rw [hsj] at hpkey
              simpa using hpkey
            subst hji
            have hmin : s.min_units =
                to_units (if (payload.powerplants.get ⟨j, hp⟩).type ≠ PowerPlantType.wind
                  then (payload.powerplants.get ⟨j, hp⟩).pmin else 0) := by
              rw [hsj]
              rfl
            have hmax : s.max_units =
                to_units (effective_max_output (payload.powerplants.get ⟨j, hp⟩)
                  payload.fuels) := by
              rw [hsj]
              rfl
            right
            rw [hpval, from_units_eq]
            have hc1 : ((s.min_units : ℤ) : ℚ) ≤ (u : ℚ) := Int.cast_le.mpr hlo
            have hc2 : (u : ℚ) ≤ ((s.max_units : ℤ) : ℚ) := Int.cast_le.mpr hhi
            rw [hmin] at hc1
            rw [hmax] at hc2
            constructor <;> linarith

/-- Witness for C6 at the downscaled Scenario A request: the single entry
allocates 0.3 MW, within the quantized bounds [0, 0.5]. -/
theorem allocation_within_quantized_bounds_witness :
    (([⟨"a", (3 : ℚ)/10⟩] : List PowerDispatch).get ⟨0, by decide⟩).p = 0 ∨
      (((to_units (if (scenario_a_request.powerplants.get ⟨0, by decide⟩).type ≠
          PowerPlantType.wind
          then (scenario_a_request.powerplants.get ⟨0, by decide⟩).pmin else 0) : ℤ) : ℚ) / 10 ≤
            (([⟨"a", (3 : ℚ)/10⟩] : List PowerDispatch).get ⟨0, by decide⟩).p ∧
        (([⟨"a", (3 : ℚ)/10⟩] : List PowerDispatch).get ⟨0, by decide⟩).p ≤
          ((to_units (effective_max_output (scenario_a_request.powerplants.get ⟨0, by decide⟩)
            scenario_a_request.fuels) : ℤ) : ℚ) / 10) :=
  allocation_within_quantized_bounds scenario_a_request [⟨"a", (3 : ℚ)/10⟩] (by decide)
    0 (by decide) (by decide)

end

end PowerplantApi
